import Mathlib

/-
Verification of the massa-signature core (src/massa-signature/src/signature_impl.rs):
versioned KeyPair / PublicKey / Signature primitives, their binary framing with a
varint version prefix, text-prefix rules, ordering/equality/hashing of public keys,
version-dispatching signature verification and batch verification, and the
parser-framework adapters.

Byte strings are modelled as `List Nat`; the external ed25519 primitives
(key derivation, signing, scalar and batch verification) and the base58check
codec are external collaborators and enter as explicit function parameters.
-/

namespace Massa

/-- Error type of the signature module, mirroring the three variants of
MassaSignatureError used in signature_impl.rs: InvalidVersionError,
ParsingError and SignatureError, each carrying a message. -/
inductive MassaSignatureError where
  | InvalidVersionError (msg : String)
  | ParsingError (msg : String)
  | SignatureError (msg : String)
deriving DecidableEq, Repr

/-- Byte sequences, each element intended to be below 256. -/
abbrev Bytes := List Nat

/-- Modelled from the spec: the u64 varint encoder (U64VarIntSerializer of
massa-serialization, which is not under src). Spec section 4.1: unsigned
base-128, little-endian groups, high bit set on every byte but the last.
The fuel argument only bounds the recursion; fuel 10 covers every u64 value. -/
def varintEncodeAux : Nat → Nat → Bytes
  | 0, n => [n % 128]
  | fuel + 1, n => if n < 128 then [n] else (n % 128 + 128) :: varintEncodeAux fuel (n / 128)

/-- Varint encoding of a u64 value (see varintEncodeAux). -/
def varintEncode (n : Nat) : Bytes := varintEncodeAux 10 n

/-- Modelled from the spec: the u64 varint decoder (U64VarIntDeserializer of
massa-serialization, which is not under src). It returns the decoded value and
the unread suffix, and fails if the stream ends before a terminating byte. -/
def varintDecode : Bytes → Option (Nat × Bytes)
  | [] => none
  | b :: rest =>
    if b < 128 then some (b, rest)
    else
      match varintDecode rest with
      | some (n, r) => some (b % 128 + 128 * n, r)
      | none => none

/-- The KeyPair enum produced by the transition macro: variants KeyPairV0 and
KeyPairV1, each wrapping an ed25519_dalek Keypair, modelled as the 32
secret-key bytes together with the stored (derived) 32 public-key bytes. -/
inductive KeyPair where
  | V0 (sk : Bytes) (pk : Bytes)
  | V1 (sk : Bytes) (pk : Bytes)
deriving DecidableEq, Repr

/-- The PublicKey enum produced by the transition macro: variants PublicKeyV0
and PublicKeyV1, each wrapping an ed25519_dalek PublicKey, modelled as its 32
bytes. The derived Clone, Copy, PartialEq, Eq of the source correspond to the
structural equality of this inductive. -/
inductive PublicKey where
  | V0 (pk : Bytes)
  | V1 (pk : Bytes)
deriving DecidableEq, Repr

/-- The Signature enum produced by the transition macro: variants SignatureV0
and SignatureV1, each wrapping an ed25519_dalek Signature, modelled as its 64
bytes. -/
inductive Signature where
  | V0 (sig : Bytes)
  | V1 (sig : Bytes)
deriving DecidableEq, Repr

/-- KeyPair::get_version: 0 for the V0 variant, 1 for the V1 variant. -/
def KeyPair.getVersion : KeyPair → Nat
  | .V0 _ _ => 0
  | .V1 _ _ => 1

/-- Secret-key bytes stored in a KeyPair (field self.0.secret in the source). -/
def KeyPair.sk : KeyPair → Bytes
  | .V0 s _ => s
  | .V1 s _ => s

/-- Public-key bytes stored in a KeyPair (field self.0.public in the source). -/
def KeyPair.pk : KeyPair → Bytes
  | .V0 _ p => p
  | .V1 _ p => p

/-- KeyPair::get_ser_len, per version: VERSION_VARINT_SIZE_BYTES (1) plus
SECRET_KEY_BYTES_SIZE (32). -/
def KeyPair.getSerLen : KeyPair → Nat
  | .V0 _ _ => 1 + 32
  | .V1 _ _ => 1 + 32

/-- KeyPair::to_bytes: the varint of the version followed by the secret-key
bytes only (the public key is never serialized; it is rederived on decode). -/
def KeyPair.toBytes : KeyPair → Bytes
  | .V0 s _ => varintEncode 0 ++ s
  | .V1 s _ => varintEncode 1 ++ s

/-- Per-version KeyPair::from_bytes body: fails if fewer than 32 bytes remain,
otherwise consumes exactly the first 32 bytes as the secret key and rederives
the public key through the external derivation function (ed25519_dalek
PublicKey::from applied to the SecretKey, passed here as `derive`). -/
def keyPairPayloadFromBytes (derive : Bytes → Bytes) (data : Bytes) :
    Except MassaSignatureError (Bytes × Bytes) :=
  if data.length < 32 then
    .error (.ParsingError "keypair byte array is of invalid size")
  else
    .ok (data.take 32, derive (data.take 32))

/-- KeyPair::from_bytes on the versioned enum: read the version varint, then
dispatch on the version; versions other than 0 and 1 give InvalidVersionError. -/
def KeyPair.fromBytes (derive : Bytes → Bytes) (data : Bytes) :
    Except MassaSignatureError KeyPair :=
  match varintDecode data with
  | none => .error (.ParsingError "varint deserialization failed")
  | some (0, rest) => (keyPairPayloadFromBytes derive rest).map fun pr => .V0 pr.1 pr.2
  | some (1, rest) => (keyPairPayloadFromBytes derive rest).map fun pr => .V1 pr.1 pr.2
  | some (_, _) => .error (.InvalidVersionError "Unknown keypair version")

/-- The KeyPair obtained by re-deriving the public key from the stored secret
key, keeping the version; KeyPair::from_bytes after to_bytes lands on this. -/
def KeyPair.rederive (derive : Bytes → Bytes) : KeyPair → KeyPair
  | .V0 s _ => .V0 s (derive s)
  | .V1 s _ => .V1 s (derive s)

/-- KeyPair::generate on the versioned enum, at the given version. The freshly
drawn secret-key bytes come from the OS random source, passed here as `rngSk`;
the public key is derived from the secret key (parameter `derive`). Versions
other than 0 and 1 give InvalidVersionError. -/
def KeyPair.generate (rngSk : Bytes) (derive : Bytes → Bytes) (version : Nat) :
    Except MassaSignatureError KeyPair :=
  match version with
  | 0 => .ok (.V0 rngSk (derive rngSk))
  | 1 => .ok (.V1 rngSk (derive rngSk))
  | _ => .error (.InvalidVersionError "KeyPair version does not exist")

/-- KeyPair::sign: dispatches on the version and wraps the raw ed25519
signature (external signing function `edSign` over the secret key and the
32 hash bytes) in the Signature variant of the same version. The per-version
body always returns Ok. -/
def KeyPair.sign (edSign : Bytes → Bytes → Bytes) (k : KeyPair) (hash : Bytes) :
    Except MassaSignatureError Signature :=
  match k with
  | .V0 s _ => .ok (.V0 (edSign s hash))
  | .V1 s _ => .ok (.V1 (edSign s hash))

/-- KeyPair::get_public_key: wraps the stored public-key bytes in the
PublicKey variant of the same version. -/
def KeyPair.getPublicKey : KeyPair → PublicKey
  | .V0 _ p => .V0 p
  | .V1 _ p => .V1 p

/-- PublicKey::get_version. -/
def PublicKey.getVersion : PublicKey → Nat
  | .V0 _ => 0
  | .V1 _ => 1

/-- The 32 payload bytes of a PublicKey (self.0.to_bytes() in the source). -/
def PublicKey.payload : PublicKey → Bytes
  | .V0 p => p
  | .V1 p => p

/-- PublicKey::get_ser_len, per version: 1 varint byte plus
PUBLIC_KEY_SIZE_BYTES (32). -/
def PublicKey.getSerLen : PublicKey → Nat
  | .V0 _ => 1 + 32
  | .V1 _ => 1 + 32

/-- PublicKey::to_bytes: the varint of the version followed by the 32
public-key bytes (versioned to_bytes, source lines 723 to 732). -/
def PublicKey.toBytes : PublicKey → Bytes
  | .V0 p => varintEncode 0 ++ p
  | .V1 p => varintEncode 1 ++ p

/-- Per-version PublicKey::from_bytes body: fails if fewer than 32 bytes
remain, otherwise consumes exactly the first 32 bytes. The ed25519_dalek
point-decoding step is external; it is modelled from the spec (section 4.2),
which admits any 32-byte payload. -/
def pubKeyPayloadFromBytes (data : Bytes) : Except MassaSignatureError Bytes :=
  if data.length < 32 then
    .error (.ParsingError "public key byte array is of invalid size")
  else
    .ok (data.take 32)

/-- PublicKey::from_bytes on the versioned enum: read the version varint, then
dispatch; versions other than 0 and 1 give InvalidVersionError. -/
def PublicKey.fromBytes (data : Bytes) : Except MassaSignatureError PublicKey :=
  match varintDecode data with
  | none => .error (.ParsingError "varint deserialization failed")
  | some (0, rest) => (pubKeyPayloadFromBytes rest).map .V0
  | some (1, rest) => (pubKeyPayloadFromBytes rest).map .V1
  | some (_, _) => .error (.InvalidVersionError "Unknown PublicKey version")

/-- Lexicographic comparison of byte vectors, as the Ord instance of Rust
Vec of u8: elementwise, a strict prefix ordering before the longer vector. -/
def bytesCmp : Bytes → Bytes → Ordering
  | [], [] => .eq
  | [], _ :: _ => .lt
  | _ :: _, [] => .gt
  | x :: xs, y :: ys => if x < y then .lt else if y < x then .gt else bytesCmp xs ys

/-- The Ord impl for the outer PublicKey enum (source lines 499 to 503):
it compares self.to_bytes() with other.to_bytes(), that is the full
serialized bytes including the leading version varint. -/
def PublicKey.cmp (a b : PublicKey) : Ordering := bytesCmp a.toBytes b.toBytes

/-- Equality of the outer PublicKey enum as derived by PartialEq on the
transition enum (the derive on source line 480): structural, the variant and
the payload bytes must both agree. -/
def PublicKey.beq : PublicKey → PublicKey → Bool
  | .V0 a, .V0 b => a == b
  | .V1 a, .V1 b => a == b
  | _, _ => false

/-- The bytes that the Hash impl of PublicKey feeds to the hasher (source
lines 484 to 491 dispatch to the versioned impl at lines 654 to 658, which
hashes self.0.to_bytes(): the 32 payload bytes only, no version tag). -/
def PublicKey.hashInput : PublicKey → Bytes
  | .V0 p => p
  | .V1 p => p

/-- Signature::get_version. -/
def Signature.getVersion : Signature → Nat
  | .V0 _ => 0
  | .V1 _ => 1

/-- The 64 payload bytes of a Signature. -/
def Signature.payload : Signature → Bytes
  | .V0 s => s
  | .V1 s => s

/-- Signature::get_ser_len, per version: 1 varint byte plus
SIGNATURE_SIZE_BYTES (64). -/
def Signature.getSerLen : Signature → Nat
  | .V0 _ => 1 + 64
  | .V1 _ => 1 + 64

/-- Signature::to_bytes: the varint of the version followed by the 64
signature bytes. -/
def Signature.toBytes : Signature → Bytes
  | .V0 s => varintEncode 0 ++ s
  | .V1 s => varintEncode 1 ++ s

/-- Per-version Signature::from_bytes body: fails if fewer than 64 bytes
remain, otherwise consumes exactly the first 64 bytes. -/
def sigPayloadFromBytes (data : Bytes) : Except MassaSignatureError Bytes :=
  if data.length < 64 then
    .error (.ParsingError "signature byte array is of invalid size")
  else
    .ok (data.take 64)

/-- Signature::from_bytes on the versioned enum: read the version varint, then
dispatch; versions other than 0 and 1 give InvalidVersionError. -/
def Signature.fromBytes (data : Bytes) : Except MassaSignatureError Signature :=
  match varintDecode data with
  | none => .error (.ParsingError "varint deserialization failed")
  | some (0, rest) => (sigPayloadFromBytes rest).map .V0
  | some (1, rest) => (sigPayloadFromBytes rest).map .V1
  | some (_, _) => .error (.InvalidVersionError "Unknown signature version")

/-- PublicKey::verify_signature (source lines 578 to 594): if the PublicKey
and Signature variants have the same version, delegate to the per-version
ed25519 verification (external, parameter `ed` over hash bytes, signature
bytes and public-key bytes; its failure is wrapped in SignatureError);
otherwise InvalidVersionError. -/
def verifySignature (ed : Bytes → Bytes → Bytes → Bool) (hash : Bytes)
    (pk : PublicKey) (sg : Signature) : Except MassaSignatureError Unit :=
  match pk, sg with
  | .V0 p, .V0 s =>
    if ed hash s p then .ok ()
    else .error (.SignatureError "Signature verification failed")
  | .V1 p, .V1 s =>
    if ed hash s p then .ok ()
    else .error (.SignatureError "Signature verification failed")
  | _, _ =>
    .error (.InvalidVersionError "The PublicKey and Signature versions do not match")

/-- The per-item match of verify_signature_batch (source lines 1300 to 1309):
a (Signature, PublicKey) pair of one common version yields the raw signature
and public-key bytes; any other combination is a version mismatch. -/
def extractPair : Signature × PublicKey → Option (Bytes × Bytes)
  | (.V0 s, .V0 p) => some (s, p)
  | (.V1 s, .V1 p) => some (s, p)
  | _ => none

/-- The accumulation loop of verify_signature_batch: the parallel arrays of
hash bytes, raw signatures and raw public keys, or failure at the first
version-mismatched pair. -/
def collectBatch : List (Bytes × Signature × PublicKey) → Option (List (Bytes × Bytes × Bytes))
  | [] => some []
  | (h, sp) :: rest =>
    match extractPair sp, collectBatch rest with
    | some (sb, pb), some tl => some ((h, sb, pb) :: tl)
    | _, _ => none

/-- verify_signature_batch (source lines 1281 to 1324): the empty batch
succeeds; a singleton delegates to the scalar verification; otherwise the
triples are collected (failing with InvalidVersionError on a mismatched pair)
and handed to the external ed25519_dalek batch verifier, modelled from the
spec (sections 4.6 and the glossary) as deciding whether all signatures in
the set are valid; its failure is wrapped in SignatureError. -/
def verifySignatureBatch (ed : Bytes → Bytes → Bytes → Bool)
    (batch : List (Bytes × Signature × PublicKey)) : Except MassaSignatureError Unit :=
  match batch with
  | [] => .ok ()
  | [t] => verifySignature ed t.1 t.2.2 t.2.1
  | t1 :: t2 :: rest =>
    match collectBatch (t1 :: t2 :: rest) with
    | none => .error (.InvalidVersionError "Batch contains unsupported or incompatible versions")
    | some tl =>
      if tl.all (fun t => ed t.1 t.2.1 t.2.2) then .ok ()
      else .error (.SignatureError "Batch signature verification failed")

/-- KeyPair::from_str (source lines 69 to 88): the first character must be
the secret prefix character S, the remainder is base58check-decoded (external
codec, parameter `bs58dec`; failure collapses to ParsingError) and passed to
KeyPair::from_bytes. A missing or different first character is ParsingError. -/
def keyPairFromStr (bs58dec : List Char → Option Bytes) (derive : Bytes → Bytes)
    (s : List Char) : Except MassaSignatureError KeyPair :=
  match s with
  | c :: rest =>
    if c = 'S' then
      match bs58dec rest with
      | some bytes => KeyPair.fromBytes derive bytes
      | none => .error (.ParsingError "bad secret key bs58")
    else .error (.ParsingError "bad secret prefix")
  | [] => .error (.ParsingError "bad secret prefix")

/-- PublicKey::from_str (source lines 554 to 572): identical to the KeyPair
rule with the public prefix character P. -/
def publicKeyFromStr (bs58dec : List Char → Option Bytes) (s : List Char) :
    Except MassaSignatureError PublicKey :=
  match s with
  | c :: rest =>
    if c = 'P' then
      match bs58dec rest with
      | some bytes => PublicKey.fromBytes bytes
      | none => .error (.ParsingError "Bad public key bs58")
    else .error (.ParsingError "Bad public key prefix")
  | [] => .error (.ParsingError "Bad public key prefix")

/-- Signature::from_str (source lines 905 to 912): no prefix character; the
entire string is base58check-decoded, failure collapsing to ParsingError, and
the result passed to Signature::from_bytes. -/
def signatureFromStr (bs58dec : List Char → Option Bytes) (s : List Char) :
    Except MassaSignatureError Signature :=
  match bs58dec s with
  | some bytes => Signature.fromBytes bytes
  | none => .error (.ParsingError "bad signature bs58")

/-- PublicKeyDeserializer::deserialize (source lines 783 to 795): run
PublicKey::from_bytes on the buffer; on failure emit the generic nom error
(modelled as none); on success return the suffix starting at index
get_ser_len together with the decoded key. -/
def publicKeyDeserializerRun (buffer : Bytes) : Option (Bytes × PublicKey) :=
  match PublicKey.fromBytes buffer with
  | .ok pk => some (buffer.drop pk.getSerLen, pk)
  | .error _ => none

/-- SignatureDeserializer::deserialize (source lines 1265 to 1277): same
adapter shape for Signature. -/
def signatureDeserializerRun (buffer : Bytes) : Option (Bytes × Signature) :=
  match Signature.fromBytes buffer with
  | .ok sg => some (buffer.drop sg.getSerLen, sg)
  | .error _ => none

/-- Helper: a list is recovered whole by take at its own length, also in
front of appended bytes. -/
theorem take_length_append (l g : Bytes) : (l ++ g).take l.length = l := by
  induction l with
  | nil => simp
  | cons a t ih => simp [ih]

/-- Helper: the varint encoding of version 0 is the single byte 0. -/
theorem varintEncode_zero : varintEncode 0 = [0] := rfl

/-- Helper: the varint encoding of version 1 is the single byte 1. -/
theorem varintEncode_one : varintEncode 1 = [1] := rfl

/-- Helper: decoding a byte below 128 yields that byte and the untouched rest. -/
theorem varintDecode_cons_small (b : Nat) (hb : b < 128) (rest : Bytes) :
    varintDecode (b :: rest) = some (b, rest) := by
  simp [varintDecode, hb]

/-- Helper: the varint decoder consumes at least one byte. -/
theorem varintDecode_length : ∀ (data : Bytes) (n : Nat) (rest : Bytes),
    varintDecode data = some (n, rest) → rest.length + 1 ≤ data.length := by
  intro data
  induction data with
  | nil => intro n rest h; simp [varintDecode] at h
  | cons b t ih =>
    intro n rest h
    simp only [varintDecode] at h
    by_cases hb : b < 128
    · rw [if_pos hb] at h
      cases h
      simp
    · rw [if_neg hb] at h
      cases ht : varintDecode t with
      | none => rw [ht] at h; cases h
      | some pr =>
        obtain ⟨m, r⟩ := pr
        rw [ht] at h
        simp only [Option.some.injEq, Prod.mk.injEq] at h
        obtain ⟨h1, h2⟩ := h
        subst h2
        have := ih m r ht
        simp only [List.length_cons]
        omega

/-- C1 counterexample: two public keys with identical 32 payload bytes but
different versions do not compare as equal under the Ord impl of the source;
the V0 key compares strictly below the V1 key although the payload comparison
is eq, so the version tag does take part in the comparison key. -/
theorem publicKey_cmp_version_matters_cex :
    PublicKey.cmp (.V0 (List.replicate 32 5)) (.V1 (List.replicate 32 5)) = Ordering.lt ∧
    bytesCmp (PublicKey.payload (.V0 (List.replicate 32 5)))
      (PublicKey.payload (.V1 (List.replicate 32 5))) = Ordering.eq ∧
    PublicKey.cmp (.V0 (List.replicate 32 5)) (.V1 (List.replicate 32 5)) ≠ Ordering.eq := by
  decide

/-- C1 (amended): PublicKey comparison is the lexicographic order of the full
serialized bytes, version varint first: for two keys of one version it is
exactly the lexicographic order of the payload bytes, and across versions
every V0 key sorts strictly before every V1 key, whatever the payloads. -/
theorem publicKey_cmp_serialized_lex :
    (∀ p q : Bytes, PublicKey.cmp (.V0 p) (.V0 q) = bytesCmp p q) ∧
    (∀ p q : Bytes, PublicKey.cmp (.V1 p) (.V1 q) = bytesCmp p q) ∧
    (∀ p q : Bytes, PublicKey.cmp (.V0 p) (.V1 q) = Ordering.lt) ∧
    (∀ p q : Bytes, PublicKey.cmp (.V1 p) (.V0 q) = Ordering.gt) ∧
    (∀ a b : PublicKey, PublicKey.cmp a b = bytesCmp a.toBytes b.toBytes) := by
  refine ⟨?_, ?_, ?_, ?_, fun a b => rfl⟩ <;>
    intro p q <;>
    simp [PublicKey.cmp, PublicKey.toBytes, varintEncode_zero, varintEncode_one, bytesCmp]

/-- C2 counterexample: a V0 and a V1 public key holding identical payload
bytes hash identically (the hasher is fed the payload only) yet do not compare
equal under the derived PartialEq of the enum. -/
theorem publicKey_beq_cross_version_cex :
    PublicKey.beq (.V0 (List.replicate 32 7)) (.V1 (List.replicate 32 7)) = false ∧
    PublicKey.hashInput (.V0 (List.replicate 32 7)) =
      PublicKey.hashInput (.V1 (List.replicate 32 7)) := by
  decide

/-- C2 (amended): hashing of a PublicKey depends only on the 32 payload bytes
(the version tag is not fed to the hasher, so equal-payload keys of different
versions collide), but equality is the derived structural one: two keys are
equal exactly when both the variant and the payload bytes agree, so a V0 and
a V1 key never compare equal. -/
theorem publicKey_eq_structural_hash_payload_only :
    (∀ p : Bytes, PublicKey.hashInput (.V0 p) = p ∧ PublicKey.hashInput (.V1 p) = p) ∧
    (∀ a b : PublicKey, PublicKey.beq a b = true ↔ a = b) ∧
    (∀ p q : Bytes, PublicKey.beq (.V0 p) (.V1 q) = false ∧
      PublicKey.beq (.V1 p) (.V0 q) = false) := by
  refine ⟨fun p => ⟨rfl, rfl⟩, ?_, fun p q => ⟨rfl, rfl⟩⟩
  intro a b
  cases a <;> cases b <;> simp [PublicKey.beq]

/-- C4: verify_signature delegates to the common version when the PublicKey
and the Signature carry the same version (success exactly when the external
ed25519 verification accepts, failure wrapped in SignatureError), and returns
InvalidVersionError whenever the two versions differ. -/
theorem verify_signature_version_rule (ed : Bytes → Bytes → Bytes → Bool)
    (hash p s : Bytes) :
    verifySignature ed hash (.V0 p) (.V1 s) =
      .error (.InvalidVersionError "The PublicKey and Signature versions do not match") ∧
    verifySignature ed hash (.V1 p) (.V0 s) =
      .error (.InvalidVersionError "The PublicKey and Signature versions do not match") ∧
    verifySignature ed hash (.V0 p) (.V0 s) =
      (if ed hash s p then .ok ()
       else .error (.SignatureError "Signature verification failed")) ∧
    verifySignature ed hash (.V1 p) (.V1 s) =
      (if ed hash s p then .ok ()
       else .error (.SignatureError "Signature verification failed")) :=
  ⟨rfl, rfl, rfl, rfl⟩

/-- Helper: the per-version KeyPair decoder on a 32-byte secret key followed
by anything recovers the secret key and rederives the public key. -/
theorem keyPairPayload_append (derive : Bytes → Bytes) (pl g : Bytes) (hp : pl.length = 32) :
    keyPairPayloadFromBytes derive (pl ++ g) = .ok (pl, derive pl) := by
  unfold keyPairPayloadFromBytes
  rw [if_neg (by simp only [List.length_append, hp]; omega), ← hp, take_length_append]

/-- Helper: the per-version PublicKey decoder on a 32-byte payload followed
by anything recovers the payload. -/
theorem pubKeyPayload_append (pl g : Bytes) (hp : pl.length = 32) :
    pubKeyPayloadFromBytes (pl ++ g) = .ok pl := by
  unfold pubKeyPayloadFromBytes
  rw [if_neg (by simp only [List.length_append, hp]; omega), ← hp, take_length_append]

/-- Helper: the per-version Signature decoder on a 64-byte payload followed
by anything recovers the payload. -/
theorem sigPayload_append (pl g : Bytes) (hp : pl.length = 64) :
    sigPayloadFromBytes (pl ++ g) = .ok pl := by
  unfold sigPayloadFromBytes
  rw [if_neg (by simp only [List.length_append, hp]; omega), ← hp, take_length_append]

/-- Helper: KeyPair::from_bytes on to_bytes plus any trailing garbage
succeeds and yields the keypair with its public key rederived. -/
theorem keyPair_fromBytes_append (derive : Bytes → Bytes) (k : KeyPair)
    (hk : k.sk.length = 32) (g : Bytes) :
    KeyPair.fromBytes derive (k.toBytes ++ g) = .ok (k.rederive derive) := by
  cases k with
  | V0 s p =>
    simp only [KeyPair.sk] at hk
    have h1 : KeyPair.toBytes (.V0 s p) ++ g = 0 :: (s ++ g) := by
      simp [KeyPair.toBytes, varintEncode_zero]
    rw [h1]
    unfold KeyPair.fromBytes
    rw [varintDecode_cons_small 0 (by omega) (s ++ g)]
    simp [keyPairPayload_append derive s g hk, KeyPair.rederive, Except.map]
  | V1 s p =>
    simp only [KeyPair.sk] at hk
    have h1 : KeyPair.toBytes (.V1 s p) ++ g = 1 :: (s ++ g) := by
      simp [KeyPair.toBytes, varintEncode_one]
    rw [h1]
    unfold KeyPair.fromBytes
    rw [varintDecode_cons_small 1 (by omega) (s ++ g)]
    simp [keyPairPayload_append derive s g hk, KeyPair.rederive, Except.map]

/-- Helper: PublicKey::from_bytes on to_bytes plus any trailing garbage
succeeds and yields the key back. -/
theorem pubKey_fromBytes_append (p : PublicKey) (hp : p.payload.length = 32) (g : Bytes) :
    PublicKey.fromBytes (p.toBytes ++ g) = .ok p := by
  cases p with
  | V0 pl =>
    simp only [PublicKey.payload] at hp
    have h1 : PublicKey.toBytes (.V0 pl) ++ g = 0 :: (pl ++ g) := by
      simp [PublicKey.toBytes, varintEncode_zero]
    rw [h1]
    unfold PublicKey.fromBytes
    rw [varintDecode_cons_small 0 (by omega) (pl ++ g)]
    simp [pubKeyPayload_append pl g hp, Except.map]
  | V1 pl =>
    simp only [PublicKey.payload] at hp
    have h1 : PublicKey.toBytes (.V1 pl) ++ g = 1 :: (pl ++ g) := by
      simp [PublicKey.toBytes, varintEncode_one]
    rw [h1]
    unfold PublicKey.fromBytes
    rw [varintDecode_cons_small 1 (by omega) (pl ++ g)]
    simp [pubKeyPayload_append pl g hp, Except.map]

/-- Helper: Signature::from_bytes on to_bytes plus any trailing garbage
succeeds and yields the signature back. -/
theorem sig_fromBytes_append (s : Signature) (hs : s.payload.length = 64) (g : Bytes) :
    Signature.fromBytes (s.toBytes ++ g) = .ok s := by
  cases s with
  | V0 pl =>
    simp only [Signature.payload] at hs
    have h1 : Signature.toBytes (.V0 pl) ++ g = 0 :: (pl ++ g) := by
      simp [Signature.toBytes, varintEncode_zero]
    rw [h1]
    unfold Signature.fromBytes
    rw [varintDecode_cons_small 0 (by omega) (pl ++ g)]
    simp [sigPayload_append pl g hs, Except.map]
  | V1 pl =>
    simp only [Signature.payload] at hs
    have h1 : Signature.toBytes (.V1 pl) ++ g = 1 :: (pl ++ g) := by
      simp [Signature.toBytes, varintEncode_one]
    rw [h1]
    unfold Signature.fromBytes
    rw [varintDecode_cons_small 1 (by omega) (pl ++ g)]
    simp [sigPayload_append pl g hs, Except.map]

/-- C5: from_bytes inverts to_bytes. For PublicKey and Signature the decoded
value is equal to the original; for KeyPair the decoded value is the keypair
with its public key rederived from the secret key, so its serialized form and
version are identical to the original. -/
theorem from_bytes_to_bytes_roundtrip (derive : Bytes → Bytes) (k : KeyPair)
    (p : PublicKey) (s : Signature)
    (hk : k.sk.length = 32) (hp : p.payload.length = 32) (hs : s.payload.length = 64) :
    (KeyPair.fromBytes derive k.toBytes = .ok (k.rederive derive) ∧
      (k.rederive derive).toBytes = k.toBytes ∧
      (k.rederive derive).getVersion = k.getVersion) ∧
    PublicKey.fromBytes p.toBytes = .ok p ∧
    Signature.fromBytes s.toBytes = .ok s := by
  refine ⟨⟨?_, ?_, ?_⟩, ?_, ?_⟩
  · simpa using keyPair_fromBytes_append derive k hk []
  · cases k <;> rfl
  · cases k <;> rfl
  · simpa using pubKey_fromBytes_append p hp []
  · simpa using sig_fromBytes_append s hs []

/-- Witness for C5 at concrete inputs. -/
theorem from_bytes_to_bytes_roundtrip_wit :
    (KeyPair.V0 (List.replicate 32 1) (List.replicate 32 2)).sk.length = 32 ∧
    (PublicKey.V1 (List.replicate 32 3)).payload.length = 32 ∧
    (Signature.V0 (List.replicate 64 4)).payload.length = 64 ∧
    PublicKey.fromBytes (PublicKey.V1 (List.replicate 32 3)).toBytes =
      .ok (PublicKey.V1 (List.replicate 32 3)) :=
  ⟨by decide, by decide, by decide,
    (from_bytes_to_bytes_roundtrip (fun b => b)
      (KeyPair.V0 (List.replicate 32 1) (List.replicate 32 2))
      (PublicKey.V1 (List.replicate 32 3))
      (Signature.V0 (List.replicate 64 4))
      (by decide) (by decide) (by decide)).2.1⟩

/-- C6: trailing-byte tolerance. Appending any garbage after a serialized
KeyPair, PublicKey or Signature leaves from_bytes with the same successful
result: only the version varint and the fixed-size payload are consumed. -/
theorem from_bytes_trailing_bytes (derive : Bytes → Bytes) (k : KeyPair)
    (p : PublicKey) (s : Signature) (garbage : Bytes)
    (hk : k.sk.length = 32) (hp : p.payload.length = 32) (hs : s.payload.length = 64) :
    (KeyPair.fromBytes derive (k.toBytes ++ garbage) = KeyPair.fromBytes derive k.toBytes ∧
      KeyPair.fromBytes derive (k.toBytes ++ garbage) = .ok (k.rederive derive)) ∧
    (PublicKey.fromBytes (p.toBytes ++ garbage) = PublicKey.fromBytes p.toBytes ∧
      PublicKey.fromBytes (p.toBytes ++ garbage) = .ok p) ∧
    (Signature.fromBytes (s.toBytes ++ garbage) = Signature.fromBytes s.toBytes ∧
      Signature.fromBytes (s.toBytes ++ garbage) = .ok s) := by
  have hk1 := keyPair_fromBytes_append derive k hk garbage
  have hk0 : KeyPair.fromBytes derive k.toBytes = .ok (k.rederive derive) := by
    simpa using keyPair_fromBytes_append derive k hk []
  have hp1 := pubKey_fromBytes_append p hp garbage
  have hp0 : PublicKey.fromBytes p.toBytes = .ok p := by
    simpa using pubKey_fromBytes_append p hp []
  have hs1 := sig_fromBytes_append s hs garbage
  have hs0 : Signature.fromBytes s.toBytes = .ok s := by
    simpa using sig_fromBytes_append s hs []
  exact ⟨⟨by rw [hk1, hk0], hk1⟩, ⟨by rw [hp1, hp0], hp1⟩, ⟨by rw [hs1, hs0], hs1⟩⟩

/-- Witness for C6 at concrete inputs. -/
theorem from_bytes_trailing_bytes_wit :
    (KeyPair.V1 (List.replicate 32 9) (List.replicate 32 8)).sk.length = 32 ∧
    (PublicKey.V0 (List.replicate 32 6)).payload.length = 32 ∧
    (Signature.V1 (List.replicate 64 2)).payload.length = 64 ∧
    PublicKey.fromBytes ((PublicKey.V0 (List.replicate 32 6)).toBytes ++ [255, 254]) =
      .ok (PublicKey.V0 (List.replicate 32 6)) :=
  ⟨by decide, by decide, by decide,
    (from_bytes_trailing_bytes (fun b => b)
      (KeyPair.V1 (List.replicate 32 9) (List.replicate 32 8))
      (PublicKey.V0 (List.replicate 32 6))
      (Signature.V1 (List.replicate 64 2))
      [255, 254] (by decide) (by decide) (by decide)).2.1.2⟩

/-- C7: binary layout. Each serialization is exactly the one-byte varint of
the version followed by the fixed-size payload (the secret key only for a
KeyPair, never the public key), and the length equals get_ser_len: 33 bytes
for KeyPair and PublicKey, 65 for Signature. -/
theorem to_bytes_layout (k : KeyPair) (p : PublicKey) (s : Signature)
    (hk : k.sk.length = 32) (hp : p.payload.length = 32) (hs : s.payload.length = 64) :
    (k.toBytes = varintEncode k.getVersion ++ k.sk ∧
      varintEncode k.getVersion = [k.getVersion] ∧
      k.toBytes.length = 33 ∧ k.getSerLen = 33) ∧
    (p.toBytes = varintEncode p.getVersion ++ p.payload ∧
      varintEncode p.getVersion = [p.getVersion] ∧
      p.toBytes.length = 33 ∧ p.getSerLen = 33) ∧
    (s.toBytes = varintEncode s.getVersion ++ s.payload ∧
      varintEncode s.getVersion = [s.getVersion] ∧
      s.toBytes.length = 65 ∧ s.getSerLen = 65) := by
  cases k <;> cases p <;> cases s <;>
    simp_all [KeyPair.toBytes, KeyPair.getVersion, KeyPair.sk, KeyPair.getSerLen,
      PublicKey.toBytes, PublicKey.getVersion, PublicKey.payload, PublicKey.getSerLen,
      Signature.toBytes, Signature.getVersion, Signature.payload, Signature.getSerLen,
      varintEncode_zero, varintEncode_one]

/-- Witness for C7 at concrete inputs. -/
theorem to_bytes_layout_wit :
    (KeyPair.V0 (List.replicate 32 1) (List.replicate 32 2)).sk.length = 32 ∧
    (PublicKey.V0 (List.replicate 32 3)).payload.length = 32 ∧
    (Signature.V1 (List.replicate 64 4)).payload.length = 64 ∧
    (KeyPair.V0 (List.replicate 32 1) (List.replicate 32 2)).toBytes.length = 33 :=
  ⟨by decide, by decide, by decide,
    (to_bytes_layout (KeyPair.V0 (List.replicate 32 1) (List.replicate 32 2))
      (PublicKey.V0 (List.replicate 32 3))
      (Signature.V1 (List.replicate 64 4))
      (by decide) (by decide) (by decide)).1.2.2.1⟩

/-- Helper: the scalar verification succeeds exactly when the pair has one
common version and the external ed25519 check accepts the raw bytes. -/
theorem verifySignature_ok_iff (ed : Bytes → Bytes → Bytes → Bool) (hash : Bytes)
    (pk : PublicKey) (sg : Signature) :
    verifySignature ed hash pk sg = .ok () ↔
      ∃ sb pb, extractPair (sg, pk) = some (sb, pb) ∧ ed hash sb pb = true := by
  cases pk with
  | V0 p =>
    cases sg with
    | V0 s =>
      cases he : ed hash s p
      · simp [verifySignature, extractPair, he]
      · simp [verifySignature, extractPair, he]
        exact ⟨s, p, ⟨rfl, rfl⟩, he⟩
    | V1 s => simp [verifySignature, extractPair]
  | V1 p =>
    cases sg with
    | V0 s => simp [verifySignature, extractPair]
    | V1 s =>
      cases he : ed hash s p
      · simp [verifySignature, extractPair, he]
      · simp [verifySignature, extractPair, he]
        exact ⟨s, p, ⟨rfl, rfl⟩, he⟩

/-- Helper: collecting the parallel arrays and handing them to the all-valid
batch verifier succeeds exactly when every item passes the scalar
verification. -/
theorem collectBatch_all_iff (ed : Bytes → Bytes → Bytes → Bool) :
    ∀ l : List (Bytes × Signature × PublicKey),
      ((collectBatch l).map fun tl => tl.all fun t => ed t.1 t.2.1 t.2.2) = some true ↔
        ∀ t ∈ l, verifySignature ed t.1 t.2.2 t.2.1 = .ok () := by
  intro l
  induction l with
  | nil => simp [collectBatch]
  | cons hd rest ih =>
    obtain ⟨h, sg, pk⟩ := hd
    rw [List.forall_mem_cons, ← ih]
    cases hext : extractPair (sg, pk) with
    | none =>
      have hv : ¬ (verifySignature ed h pk sg = .ok ()) := by
        rw [verifySignature_ok_iff]
        rintro ⟨sb, pb, hsome, _⟩
        rw [hext] at hsome
        cases hsome
      simp [collectBatch, hext, hv]
    | some pr =>
      obtain ⟨sb, pb⟩ := pr
      have hv : verifySignature ed h pk sg = .ok () ↔ ed h sb pb = true := by
        rw [verifySignature_ok_iff]
        constructor
        · rintro ⟨sb2, pb2, hs2, he2⟩
          rw [hext] at hs2
          simp only [Option.some.injEq, Prod.mk.injEq] at hs2
          obtain ⟨rfl, rfl⟩ := hs2
          exact he2
        · intro he
          exact ⟨sb, pb, hext, he⟩
      cases hc : collectBatch rest with
      | none => simp [collectBatch, hext, hc]
      | some tl =>
        cases he : ed h sb pb <;>
          simp [collectBatch, hext, hc, hv, he, List.all_cons]

/-- C3: verify_signature_batch succeeds exactly when every triple of the
batch passes the scalar verify_signature. In particular the empty batch
succeeds, and one scalar-failing element (bad signature, or a pair of
mismatched versions) makes the whole batch fail. -/
theorem verify_signature_batch_iff_scalar (ed : Bytes → Bytes → Bytes → Bool)
    (batch : List (Bytes × Signature × PublicKey)) :
    verifySignatureBatch ed batch = .ok () ↔
      ∀ t ∈ batch, verifySignature ed t.1 t.2.2 t.2.1 = .ok () := by
  match batch with
  | [] => simp [verifySignatureBatch]
  | [t] => simp [verifySignatureBatch]
  | t1 :: t2 :: rest =>
    rw [← collectBatch_all_iff ed (t1 :: t2 :: rest)]
    unfold verifySignatureBatch
    cases hc : collectBatch (t1 :: t2 :: rest) with
    | none => simp [hc]
    | some tl =>
      cases hall : tl.all (fun t => ed t.1 t.2.1 t.2.2) <;> simp [hc, hall]

/-- C8: text-decoding prefix rules. KeyPair::from_str yields a ParsingError
whenever the first character is not S (the empty string included);
PublicKey::from_str does the same for P; Signature::from_str has no prefix
rule: it base58check-decodes the entire string, any decode failure collapsing
to a ParsingError, and otherwise feeds the bytes to from_bytes. -/
theorem from_str_prefix_rules (bs58dec : List Char → Option Bytes)
    (derive : Bytes → Bytes) (s : List Char) :
    (s.head? ≠ some 'S' → ∃ m, keyPairFromStr bs58dec derive s = .error (.ParsingError m)) ∧
    (s.head? ≠ some 'P' → ∃ m, publicKeyFromStr bs58dec s = .error (.ParsingError m)) ∧
    (bs58dec s = none → ∃ m, signatureFromStr bs58dec s = .error (.ParsingError m)) ∧
    (∀ bytes, bs58dec s = some bytes → signatureFromStr bs58dec s = Signature.fromBytes bytes) := by
  refine ⟨?_, ?_, ?_, ?_⟩
  · intro hne
    cases s with
    | nil => exact ⟨"bad secret prefix", rfl⟩
    | cons c rest =>
      have hcs : ¬ (c = 'S') := by
        intro hc
        exact hne (by simp [hc])
      exact ⟨"bad secret prefix", by simp [keyPairFromStr, hcs]⟩
  · intro hne
    cases s with
    | nil => exact ⟨"Bad public key prefix", rfl⟩
    | cons c rest =>
      have hcp : ¬ (c = 'P') := by
        intro hc
        exact hne (by simp [hc])
      exact ⟨"Bad public key prefix", by simp [publicKeyFromStr, hcp]⟩
  · intro hn
    exact ⟨"bad signature bs58", by simp [signatureFromStr, hn]⟩
  · intro bytes hb2
    simp [signatureFromStr, hb2]

/-- Witness for C8 at concrete inputs. -/
theorem from_str_prefix_rules_wit :
    (['Q'].head? ≠ some 'S') ∧
    (∃ m, keyPairFromStr (fun _ => none) (fun b => b) ['Q'] = .error (.ParsingError m)) ∧
    (∃ m, publicKeyFromStr (fun _ => none) ['Q'] = .error (.ParsingError m)) ∧
    (∃ m, signatureFromStr (fun _ => none) ['Q'] = .error (.ParsingError m)) :=
  ⟨by decide,
   (from_str_prefix_rules (fun _ => none) (fun b => b) ['Q']).1 (by decide),
   (from_str_prefix_rules (fun _ => none) (fun b => b) ['Q']).2.1 (by decide),
   (from_str_prefix_rules (fun _ => none) (fun b => b) ['Q']).2.2.1 rfl⟩

/-- C9: generate fails with InvalidVersionError exactly on versions outside
0 and 1, and otherwise yields a KeyPair of the requested version; sign always
succeeds and the produced Signature carries the version of the KeyPair, as
does the PublicKey returned by get_public_key. -/
theorem generate_sign_version_rules (rngSk : Bytes) (derive : Bytes → Bytes)
    (edSign : Bytes → Bytes → Bytes) (v : Nat) (k : KeyPair) (hash : Bytes) :
    (v = 0 ∨ v = 1 → ∃ k2, KeyPair.generate rngSk derive v = .ok k2 ∧ k2.getVersion = v) ∧
    (v ≠ 0 → v ≠ 1 → ∃ m, KeyPair.generate rngSk derive v = .error (.InvalidVersionError m)) ∧
    (∀ k2, KeyPair.generate rngSk derive v = .ok k2 → k2.getVersion = v) ∧
    (∃ sg, KeyPair.sign edSign k hash = .ok sg ∧ sg.getVersion = k.getVersion) ∧
    (KeyPair.getPublicKey k).getVersion = k.getVersion := by
  refine ⟨?_, ?_, ?_, ?_, ?_⟩
  · rintro (rfl | rfl)
    · exact ⟨_, rfl, rfl⟩
    · exact ⟨_, rfl, rfl⟩
  · intro h0 h1
    rcases v with _ | _ | n
    · exact absurd rfl h0
    · exact absurd rfl h1
    · exact ⟨_, rfl⟩
  · intro k2 hk2
    rcases v with _ | _ | n
    · simp only [KeyPair.generate, Except.ok.injEq] at hk2
      subst hk2
      rfl
    · simp only [KeyPair.generate, Except.ok.injEq] at hk2
      subst hk2
      rfl
    · cases hk2
  · cases k with
    | V0 s p => exact ⟨_, rfl, rfl⟩
    | V1 s p => exact ⟨_, rfl, rfl⟩
  · cases k <;> rfl

/-- Witness for C9 at concrete inputs. -/
theorem generate_sign_version_rules_wit :
    (5 : Nat) ≠ 0 ∧ (5 : Nat) ≠ 1 ∧
    (∃ m, KeyPair.generate (List.replicate 32 0) (fun b => b) 5 =
      .error (.InvalidVersionError m)) ∧
    (∃ k2, KeyPair.generate (List.replicate 32 0) (fun b => b) 0 = .ok k2 ∧
      k2.getVersion = 0) ∧
    (∃ sg, KeyPair.sign (fun _ _ => List.replicate 64 0)
        (KeyPair.V1 (List.replicate 32 1) (List.replicate 32 2)) (List.replicate 32 3) =
        .ok sg ∧
      sg.getVersion = (KeyPair.V1 (List.replicate 32 1) (List.replicate 32 2)).getVersion) :=
  ⟨by decide, by decide,
   (generate_sign_version_rules (List.replicate 32 0) (fun b => b)
      (fun _ _ => List.replicate 64 0) 5 (KeyPair.V0 [] []) []).2.1 (by decide) (by decide),
   (generate_sign_version_rules (List.replicate 32 0) (fun b => b)
      (fun _ _ => List.replicate 64 0) 0 (KeyPair.V0 [] []) []).1 (Or.inl rfl),
   (generate_sign_version_rules (List.replicate 32 0) (fun b => b)
      (fun _ _ => List.replicate 64 0) 0
      (KeyPair.V1 (List.replicate 32 1) (List.replicate 32 2))
      (List.replicate 32 3)).2.2.2.1⟩

/-- Helper: a successful PublicKey::from_bytes needs at least 33 buffer
bytes: the varint consumes at least one byte and the payload check demands
32 more. -/
theorem pubKey_fromBytes_length (buf : Bytes) (p : PublicKey)
    (h : PublicKey.fromBytes buf = .ok p) : 33 ≤ buf.length := by
  unfold PublicKey.fromBytes at h
  cases hd : varintDecode buf with
  | none => rw [hd] at h; cases h
  | some pr =>
    obtain ⟨v, rest⟩ := pr
    rw [hd] at h
    have hlen := varintDecode_length buf v rest hd
    have hrest : 32 ≤ rest.length := by
      rcases v with _ | _ | n
      · by_cases hl : rest.length < 32
        · simp [pubKeyPayloadFromBytes, hl, Except.map] at h
        · omega
      · by_cases hl : rest.length < 32
        · simp [pubKeyPayloadFromBytes, hl, Except.map] at h
        · omega
      · simp at h
    omega

/-- Helper: a successful Signature::from_bytes needs at least 65 buffer
bytes. -/
theorem sig_fromBytes_length (buf : Bytes) (s : Signature)
    (h : Signature.fromBytes buf = .ok s) : 65 ≤ buf.length := by
  unfold Signature.fromBytes at h
  cases hd : varintDecode buf with
  | none => rw [hd] at h; cases h
  | some pr =>
    obtain ⟨v, rest⟩ := pr
    rw [hd] at h
    have hlen := varintDecode_length buf v rest hd
    have hrest : 64 ≤ rest.length := by
      rcases v with _ | _ | n
      · by_cases hl : rest.length < 64
        · simp [sigPayloadFromBytes, hl, Except.map] at h
        · omega
      · by_cases hl : rest.length < 64
        · simp [sigPayloadFromBytes, hl, Except.map] at h
        · omega
      · simp at h
    omega

/-- C10: whenever PublicKey::from_bytes (respectively Signature::from_bytes)
succeeds on a buffer, the buffer holds at least get_ser_len bytes (33,
respectively 65), so the suffix slice taken by the deserializer adapters is
always in bounds, and each adapter returns exactly that suffix together with
the decoded value. -/
theorem deserializer_suffix_in_bounds (bufP bufS : Bytes) (p : PublicKey) (s : Signature)
    (hp : PublicKey.fromBytes bufP = .ok p) (hs : Signature.fromBytes bufS = .ok s) :
    p.getSerLen = 33 ∧ 33 ≤ bufP.length ∧
    publicKeyDeserializerRun bufP = some (bufP.drop p.getSerLen, p) ∧
    s.getSerLen = 65 ∧ 65 ≤ bufS.length ∧
    signatureDeserializerRun bufS = some (bufS.drop s.getSerLen, s) := by
  refine ⟨?_, pubKey_fromBytes_length bufP p hp, ?_, ?_, sig_fromBytes_length bufS s hs, ?_⟩
  · cases p <;> rfl
  · simp [publicKeyDeserializerRun, hp]
  · cases s <;> rfl
  · simp [signatureDeserializerRun, hs]

/-- Witness for C10 at concrete inputs. -/
theorem deserializer_suffix_in_bounds_wit :
    PublicKey.fromBytes (0 :: List.replicate 32 1) = .ok (PublicKey.V0 (List.replicate 32 1)) ∧
    Signature.fromBytes (1 :: List.replicate 64 2) = .ok (Signature.V1 (List.replicate 64 2)) ∧
    publicKeyDeserializerRun (0 :: List.replicate 32 1) =
      some ((0 :: List.replicate 32 1).drop
        (PublicKey.V0 (List.replicate 32 1)).getSerLen, PublicKey.V0 (List.replicate 32 1)) :=
  ⟨by rfl, by rfl,
   (deserializer_suffix_in_bounds (0 :: List.replicate 32 1) (1 :: List.replicate 64 2)
      (PublicKey.V0 (List.replicate 32 1)) (Signature.V1 (List.replicate 64 2))
      (by rfl) (by rfl)).2.2.1⟩

end Massa
